import Mathlib

/-!
Verification of the request-eligibility and countdown logic of the
roomrent-frontend repository.

The embedding below translates, from the TypeScript source:
  - the landlord dashboard data load (activePending filter, two-request cap,
    next-available-time from the sorted pending list) and the send handler,
    from src/pages/BhadotDashboard.tsx (the landlord dashboard component);
  - the per-tenant duplicate-pending check and the blocked-reason rendering
    of the tenant list in the same file;
  - the tenant-side 5-day deactivation countdown (updateCountdown) from the
    tenant dashboard component;
  - the mobile-number masking helper;
  - the apiCall fallback wrapper of src/services/dbService.ts.

Timestamps: the source parses each record through new Date(...).getTime(),
which yields an epoch-millisecond number, or NaN for a malformed or missing
string. We model the parsed value as Option Int, with none standing for NaN.
JavaScript comparison semantics with NaN (every comparison false, and the
sort comparator value NaN being treated as plus zero) are modelled by the
jsGt, jsLt and sortLe functions below.
-/

/-- Request lifecycle status, from the RentRequest interface of the shared
types module. -/
inductive ReqStatus where
  | Pending
  | Accepted
  | Rejected
  deriving DecidableEq, Repr

/-- A rental request record as the dashboards consume it. The field
timestamp holds the parsed epoch-millisecond value of the createdAt string
(the source field is literally named timestamp); none models an invalid
date, i.e. NaN, arising from a malformed or missing string. -/
structure RentRequest where
  id : String
  bhadotId : String
  status : ReqStatus
  timestamp : Option Int
  deriving DecidableEq, Repr

/-- JavaScript strict greater-than on parsed date values: any comparison
involving NaN is false. -/
def jsGt : Option Int → Option Int → Bool
  | some a, some b => decide (b < a)
  | _, _ => false

/-- JavaScript strict less-than on parsed date values: any comparison
involving NaN is false. -/
def jsLt : Option Int → Option Int → Bool
  | some a, some b => decide (a < b)
  | _, _ => false

/-- 24 hours in milliseconds, the window constant of the landlord
dashboard. -/
def dayMs : Int := 24 * 60 * 60 * 1000

/-- 5 days in milliseconds, the deactivation constant of the tenant
dashboard. -/
def fiveDaysMs : Int := 5 * 24 * 60 * 60 * 1000

/-- The activePending filter of loadData: status Pending and parsed
timestamp strictly greater than now minus 24 hours. -/
def activePending (reqs : List RentRequest) (now : Int) : List RentRequest :=
  reqs.filter fun r =>
    r.status == ReqStatus.Pending && jsGt r.timestamp (some (now - dayMs))

/-- The allPending filter of loadData: status Pending, with no time
window. -/
def allPending (reqs : List RentRequest) : List RentRequest :=
  reqs.filter fun r => r.status == ReqStatus.Pending

/-- The ordering induced by the sort comparator of loadData, which returns
the difference of the two parsed timestamps: a stays no later than b when
the comparator value is nonpositive, and a NaN comparator value is treated
as zero by the JavaScript sort, so any pair involving an invalid date
compares as equal. -/
def sortLe (a b : RentRequest) : Bool :=
  match a.timestamp, b.timestamp with
  | some x, some y => decide (x ≤ y)
  | _, _ => true

/-- Insertion of a record into a list assumed sorted for sortLe, keeping
the inserted record first on ties; one step of the stable sort below. -/
def orderedInsertLe (a : RentRequest) : List RentRequest → List RentRequest
  | [] => [a]
  | b :: l => if sortLe a b then a :: b :: l else b :: orderedInsertLe a l

/-- A stable sort for sortLe (structural insertion sort). JavaScript
guarantees Array.prototype.sort is stable, and for the comparator of the
source any stable sort produces this order: records compare by their valid
timestamps, and a pair involving an invalid date compares as equal, so the
original relative order is kept. -/
def stableSort : List RentRequest → List RentRequest
  | [] => []
  | a :: l => orderedInsertLe a (stableSort l)

/-- The sortedPending list of loadData: the pending requests sorted by the
timestamp comparator. -/
def sortedPending (reqs : List RentRequest) : List RentRequest :=
  stableSort (allPending reqs)

/-- The nextAvailableTime computed by loadData: the first element of the
sorted pending list, plus 24 hours. The outer none is the null set when no
pending request exists; some none is an invalid date, arising when the
oldest sorted request has timestamp NaN. -/
def nextAvailableTime (reqs : List RentRequest) : Option (Option Int) :=
  match sortedPending reqs with
  | [] => none
  | r :: _ => some (r.timestamp.map fun t => t + dayMs)

/-- The three pieces of state loadData sets for the request limit:
pendingCount, canSendMore and nextAvailableTime. -/
structure EligibilityState where
  pendingCount : Nat
  canSendMore : Bool
  nextAvailableTime : Option (Option Int)
  deriving DecidableEq, Repr

/-- The request-limit portion of loadData, as a pure function of the
fetched request list and the captured current time. -/
def loadDataCompute (reqs : List RentRequest) (now : Int) : EligibilityState :=
  { pendingCount := (activePending reqs now).length
    canSendMore := decide ((activePending reqs now).length < 2)
    nextAvailableTime := nextAvailableTime reqs }

/-- The reason a send button is blocked, as the tenant list renders it. -/
inductive BlockedReason where
  | duplicate
  | limit
  deriving DecidableEq, Repr

/-- The hasPendingRequest check computed per tenant in the tenant list:
some request targets this tenant with status Pending. -/
def hasPendingRequest (reqs : List RentRequest) (bhadotId : String) : Bool :=
  reqs.any fun r => r.bhadotId == bhadotId && r.status == ReqStatus.Pending

/-- Whether the send button for a tenant is enabled: not a duplicate and
below the cap (the transient per-click spinner state is ignored). -/
def canSendTo (reqs : List RentRequest) (now : Int) (bhadotId : String) : Bool :=
  !hasPendingRequest reqs bhadotId && (loadDataCompute reqs now).canSendMore

/-- The blocked reason the button label renders: the duplicate case
(request already sent) takes precedence over the limit case. -/
def blockedReason (reqs : List RentRequest) (now : Int) (bhadotId : String) :
    Option BlockedReason :=
  if hasPendingRequest reqs bhadotId then some BlockedReason.duplicate
  else if !(loadDataCompute reqs now).canSendMore then some BlockedReason.limit
  else none

/-- Outcome of handleSendRequest before any network call: the handler
returns early with the limit alert when canSendMore is false, and otherwise
proceeds to issue the request. -/
inductive SendOutcome where
  | refusedLimit
  | sent
  deriving DecidableEq, Repr

/-- The guard of handleSendRequest: it checks only canSendMore, not which
tenant is targeted. -/
def handleSendRequest (st : EligibilityState) : SendOutcome :=
  if !st.canSendMore then SendOutcome.refusedLimit else SendOutcome.sent

/-- The apiCall wrapper of dbService: on a failed fetch (network error or
non-OK response, modelled as outcome none) it returns the fallback data
when one was supplied, and rethrows otherwise. -/
def apiCall {α : Type} (outcome : Option α) (fallbackData : Option α) :
    Except Unit α :=
  match outcome with
  | some v => Except.ok v
  | none =>
    match fallbackData with
    | some fb => Except.ok fb
    | none => Except.error ()

/-- getMalikRequests of dbService: the fallback is the empty list. -/
def getMalikRequests (outcome : Option (List RentRequest)) :
    Except Unit (List RentRequest) :=
  apiCall outcome (some [])

/-- The accepted-request filter of the tenant dashboard. -/
def acceptedReqs (reqs : List RentRequest) : List RentRequest :=
  reqs.filter fun r => r.status == ReqStatus.Accepted

/-- One step of the reduce that finds the oldest accepted request: keep the
current record when its parsed time is strictly less than the accumulated
oldest (any NaN comparison is false, so the accumulator is kept). -/
def pickOlder (oldest current : RentRequest) : RentRequest :=
  if jsLt current.timestamp oldest.timestamp then current else oldest

/-- The oldestAccepted reduce of the tenant dashboard: none when no
accepted request exists, else the fold of pickOlder over the list with its
head as the initial accumulator, exactly as Array.prototype.reduce does. -/
def oldestAccepted (reqs : List RentRequest) : Option RentRequest :=
  match acceptedReqs reqs with
  | [] => none
  | h :: t => some (t.foldl pickOlder h)

/-- The countdown record set by updateCountdown. In the source the fields
are JavaScript numbers; on the branch that computes them the difference is
a positive integer of milliseconds and each field is a floor of a quotient
of nonnegative integers, so Nat is the faithful carrier. -/
structure Countdown where
  days : Nat
  hours : Nat
  minutes : Nat
  seconds : Nat
  deriving DecidableEq, Repr

/-- The updateCountdown computation of the tenant dashboard, for a valid
accepted time: deadline is the accepted time plus 5 days; a nonpositive
difference yields all zeros; otherwise the difference in milliseconds is
decomposed by the floor-division cascade of the source. -/
def updateCountdown (acceptedTime : Int) (now : Int) : Countdown :=
  let diff := acceptedTime + fiveDaysMs - now
  if diff ≤ 0 then ⟨0, 0, 0, 0⟩
  else
    let d := diff.toNat
    ⟨d / 86400000, d % 86400000 / 3600000, d % 3600000 / 60000, d % 60000 / 1000⟩

/-- The countdown state of the tenant dashboard as a function of the
request list and the current time: none when no accepted request exists.
When the oldest accepted record has a malformed timestamp the source would
produce NaN in every field; that case is modelled as none and lies outside
every claim, which all speak of records created at an actual time. -/
def tenantCountdown (reqs : List RentRequest) (now : Int) : Option Countdown :=
  match oldestAccepted reqs with
  | none => none
  | some r => r.timestamp.map fun t => updateCountdown t now

/-- The maskMobileNumber helper of the landlord dashboard: a falsy or
shorter-than-3 string is returned unchanged, otherwise the first three
characters are kept and the rest replaced by a fixed mask. -/
def maskMobileNumber (mobile : String) : String :=
  if mobile = "" ∨ mobile.length < 3 then mobile
  else mobile.take 3 ++ "-xxxxxxxxxxx"

/-- The parsed timestamp of a record, defaulting to zero; used only to
state properties of lists all of whose timestamps are valid, where the
default never fires. -/
def tsKey (r : RentRequest) : Int := r.timestamp.getD 0

/-- The multiset of valid timestamps among the pending requests, the
spec-side notion "createdAt over all Pending". -/
def pendingTimestamps (reqs : List RentRequest) : List Int :=
  (allPending reqs).filterMap fun r => r.timestamp

/-- The multiset of valid timestamps among the accepted requests. -/
def acceptedTimestamps (reqs : List RentRequest) : List Int :=
  (acceptedReqs reqs).filterMap fun r => r.timestamp

/-- Spec-side active set, written from the words of the spec: status
Pending and createdAt a value strictly greater than now minus 24 hours. -/
def strictWindowPending (reqs : List RentRequest) (now : Int) : List RentRequest :=
  reqs.filter fun r =>
    r.status == ReqStatus.Pending &&
      (match r.timestamp with
       | some t => decide (now - dayMs < t)
       | none => false)

/-- C3: for every list of requests, every target tenant and every current
time, an existing Pending request targeting that tenant makes canSend false
with blockedReason duplicate, whatever the active pending count and
whatever the timestamps. -/
theorem duplicate_pending_blocks (reqs : List RentRequest) (now : Int) (tid : String)
    (h : hasPendingRequest reqs tid = true) :
    canSendTo reqs now tid = false
    ∧ blockedReason reqs now tid = some BlockedReason.duplicate := by
  exact ⟨by simp [canSendTo, h], by simp [blockedReason, h]⟩

/-- Witness for duplicate_pending_blocks: one Pending request to tenant a,
active pending count 1 (below the cap), yet sending to a is blocked with
reason duplicate. -/
theorem duplicate_pending_blocks_witness :
    (loadDataCompute [⟨"r1", "a", ReqStatus.Pending, some 0⟩] 0).pendingCount < 2
    ∧ canSendTo [⟨"r1", "a", ReqStatus.Pending, some 0⟩] 0 ("a") = false
    ∧ blockedReason [⟨"r1", "a", ReqStatus.Pending, some 0⟩] 0 ("a")
        = some BlockedReason.duplicate :=
  ⟨by decide,
   (duplicate_pending_blocks [⟨"r1", "a", ReqStatus.Pending, some 0⟩] 0 ("a") (by decide)).1,
   (duplicate_pending_blocks [⟨"r1", "a", ReqStatus.Pending, some 0⟩] 0 ("a") (by decide)).2⟩

/-- C1 counterexample: with two active Pending requests (to tenants a and
b) the cap is reached, but for target tenant a the rendered blocked reason
is duplicate, not limit: the reason is not independent of which tenant is
targeted. -/
theorem cap_reason_counterexample :
    2 ≤ (loadDataCompute [⟨"r1", "a", ReqStatus.Pending, some 0⟩,
          ⟨"r2", "b", ReqStatus.Pending, some 0⟩] 0).pendingCount
    ∧ blockedReason [⟨"r1", "a", ReqStatus.Pending, some 0⟩,
          ⟨"r2", "b", ReqStatus.Pending, some 0⟩] 0 ("a")
        ≠ some BlockedReason.limit := by decide

/-- C1 amended: when the active pending count is at least 2, canSend is
false for every target tenant and the local send handler refuses with the
limit alert, independently of the tenant; the rendered blocked reason is
limit for every tenant that has no Pending request of its own (a tenant
with a pending duplicate shows the duplicate reason instead). -/
theorem cap_blocks_all_tenants (reqs : List RentRequest) (now : Int) (tid : String)
    (h : 2 ≤ (loadDataCompute reqs now).pendingCount) :
    canSendTo reqs now tid = false
    ∧ handleSendRequest (loadDataCompute reqs now) = SendOutcome.refusedLimit
    ∧ (hasPendingRequest reqs tid = false →
        blockedReason reqs now tid = some BlockedReason.limit) := by
  have hcs : (loadDataCompute reqs now).canSendMore = false := by
    simp only [loadDataCompute] at h ⊢
    simp only [decide_eq_false_iff_not]
    omega
  refine ⟨by simp [canSendTo, hcs], by simp [handleSendRequest, hcs], ?_⟩
  intro hnd
  simp [blockedReason, hnd, hcs]

/-- Witness for cap_blocks_all_tenants: two active Pending requests, a
third distinct tenant c is blocked with reason limit and the handler
refuses. -/
theorem cap_blocks_all_tenants_witness :
    canSendTo [⟨"r1", "a", ReqStatus.Pending, some 0⟩,
        ⟨"r2", "b", ReqStatus.Pending, some 0⟩] 0 ("c") = false
    ∧ handleSendRequest (loadDataCompute [⟨"r1", "a", ReqStatus.Pending, some 0⟩,
        ⟨"r2", "b", ReqStatus.Pending, some 0⟩] 0) = SendOutcome.refusedLimit
    ∧ blockedReason [⟨"r1", "a", ReqStatus.Pending, some 0⟩,
        ⟨"r2", "b", ReqStatus.Pending, some 0⟩] 0 ("c") = some BlockedReason.limit :=
  ⟨(cap_blocks_all_tenants [⟨"r1", "a", ReqStatus.Pending, some 0⟩,
      ⟨"r2", "b", ReqStatus.Pending, some 0⟩] 0 ("c") (by decide)).1,
   (cap_blocks_all_tenants [⟨"r1", "a", ReqStatus.Pending, some 0⟩,
      ⟨"r2", "b", ReqStatus.Pending, some 0⟩] 0 ("c") (by decide)).2.1,
   (cap_blocks_all_tenants [⟨"r1", "a", ReqStatus.Pending, some 0⟩,
      ⟨"r2", "b", ReqStatus.Pending, some 0⟩] 0 ("c") (by decide)).2.2 (by decide)⟩

/-- C2: the active pending count equals the number of Pending requests
whose parsed timestamp is a value strictly greater than now minus 24 hours;
a Pending request at exactly now minus 24 hours is never in the active set,
and the count never exceeds the strict-window count. -/
theorem activePendingCount_strict_window (reqs : List RentRequest) (now : Int) :
    (loadDataCompute reqs now).pendingCount = (strictWindowPending reqs now).length
    ∧ (∀ r ∈ activePending reqs now, r.timestamp ≠ some (now - dayMs))
    ∧ (loadDataCompute reqs now).pendingCount ≤ (strictWindowPending reqs now).length := by
  have hfe : activePending reqs now = strictWindowPending reqs now := by
    unfold activePending strictWindowPending
    apply List.filter_congr
    intro r _
    cases hts : r.timestamp with
    | none => simp [jsGt, hts]
    | some t => simp [jsGt, hts]
  refine ⟨by simp [loadDataCompute, hfe], ?_, by simp [loadDataCompute, hfe]⟩
  intro r hr hts
  rw [activePending, List.mem_filter, hts] at hr
  simp [jsGt] at hr

/-- Witness for activePendingCount_strict_window: a request at exactly the
24-hour boundary is not active; a fresh request is, and is not at the
boundary. -/
theorem activePendingCount_strict_window_witness :
    (loadDataCompute [⟨"r1", "a", ReqStatus.Pending, some (0 - dayMs)⟩,
        ⟨"r2", "b", ReqStatus.Pending, some 0⟩] 0).pendingCount
      = (strictWindowPending [⟨"r1", "a", ReqStatus.Pending, some (0 - dayMs)⟩,
        ⟨"r2", "b", ReqStatus.Pending, some 0⟩] 0).length
    ∧ (⟨"r2", "b", ReqStatus.Pending, some 0⟩ : RentRequest).timestamp ≠ some (0 - dayMs) :=
  ⟨(activePendingCount_strict_window [⟨"r1", "a", ReqStatus.Pending, some (0 - dayMs)⟩,
      ⟨"r2", "b", ReqStatus.Pending, some 0⟩] 0).1,
   (activePendingCount_strict_window [⟨"r1", "a", ReqStatus.Pending, some (0 - dayMs)⟩,
      ⟨"r2", "b", ReqStatus.Pending, some 0⟩] 0).2.1
     ⟨"r2", "b", ReqStatus.Pending, some 0⟩ (by decide)⟩

/-- C5 counterexample: with a malformed-timestamp Pending request first and
a valid Pending request at time 0, the computation does not exclude the
malformed record from the window calculations: nextAvailableTime is the
invalid date derived from the malformed record, not the valid record plus
24 hours, and no error value of any kind exists in the result. -/
theorem malformed_timestamp_counterexample :
    (loadDataCompute [⟨"r1", "a", ReqStatus.Pending, none⟩,
        ⟨"r2", "b", ReqStatus.Pending, some 0⟩] 0).nextAvailableTime = some none
    ∧ (loadDataCompute [⟨"r1", "a", ReqStatus.Pending, none⟩,
        ⟨"r2", "b", ReqStatus.Pending, some 0⟩] 0).nextAvailableTime
        ≠ some (some dayMs) := by decide

/-- C5 amended: a record with malformed or missing createdAt is silently
excluded from the active pending count (every NaN comparison is false), but
no InvalidTimestamp error is signalled anywhere, and when the record is
Pending it still participates in the all-pending set that feeds the
nextAvailableTime calculation. -/
theorem malformed_timestamp_silent (reqs : List RentRequest) (now : Int)
    (r : RentRequest) (hts : r.timestamp = none) :
    r ∉ activePending reqs now
    ∧ (r ∈ reqs → r.status = ReqStatus.Pending → r ∈ allPending reqs) := by
  constructor
  · intro hr
    rw [activePending, List.mem_filter, hts] at hr
    simp [jsGt] at hr
  · intro hmem hst
    rw [allPending, List.mem_filter]
    exact ⟨hmem, by simp [hst]⟩

/-- Witness for malformed_timestamp_silent: the malformed record is absent
from the active set yet present in the all-pending set. -/
theorem malformed_timestamp_silent_witness :
    (⟨"r1", "a", ReqStatus.Pending, none⟩ : RentRequest)
      ∉ activePending [⟨"r1", "a", ReqStatus.Pending, none⟩,
          ⟨"r2", "b", ReqStatus.Pending, some 0⟩] 0
    ∧ (⟨"r1", "a", ReqStatus.Pending, none⟩ : RentRequest)
      ∈ allPending [⟨"r1", "a", ReqStatus.Pending, none⟩,
          ⟨"r2", "b", ReqStatus.Pending, some 0⟩] :=
  ⟨(malformed_timestamp_silent [⟨"r1", "a", ReqStatus.Pending, none⟩,
      ⟨"r2", "b", ReqStatus.Pending, some 0⟩] 0
      ⟨"r1", "a", ReqStatus.Pending, none⟩ rfl).1,
   (malformed_timestamp_silent [⟨"r1", "a", ReqStatus.Pending, none⟩,
      ⟨"r2", "b", ReqStatus.Pending, some 0⟩] 0
      ⟨"r1", "a", ReqStatus.Pending, none⟩ rfl).2 (by decide) rfl⟩

/-- C8: when the fetch of the landlord request list fails, getMalikRequests
returns its empty-list fallback instead of an error, and the eligibility
computation over that empty list reports pending count 0, canSendMore true
and a null next available time: the landlord appears fully eligible. -/
theorem fetch_failure_fail_open (now : Int) :
    getMalikRequests none = Except.ok []
    ∧ loadDataCompute [] now = ⟨0, true, none⟩ :=
  ⟨rfl, rfl⟩

/-- C10: a mobile number of length at least 3 is masked to its first three
characters followed by the fixed suffix, so two numbers agreeing on their
first three characters mask identically (no later digit influences the
display); a shorter string is returned unchanged. -/
theorem mask_mobile_noninterference (s t : String) :
    (3 ≤ s.length → maskMobileNumber s = s.take 3 ++ "-xxxxxxxxxxx")
    ∧ (3 ≤ s.length → 3 ≤ t.length → s.take 3 = t.take 3 →
        maskMobileNumber s = maskMobileNumber t)
    ∧ (s.length < 3 → maskMobileNumber s = s) := by
  have hmask : ∀ u : String, 3 ≤ u.length →
      maskMobileNumber u = u.take 3 ++ "-xxxxxxxxxxx" := by
    intro u hu
    rw [maskMobileNumber, if_neg]
    push_neg
    refine ⟨?_, by omega⟩
    intro he
    rw [he] at hu
    exact absurd hu (by decide)
  refine ⟨hmask s, ?_, ?_⟩
  · intro hs ht hpre
    rw [hmask s hs, hmask t ht, hpre]
  · intro hs
    rw [maskMobileNumber, if_pos (Or.inr hs)]

/-- Witness for mask_mobile_noninterference: two ten-digit numbers sharing
their first three digits mask to the same string, and a two-character
string is returned unchanged. -/
theorem mask_mobile_noninterference_witness :
    maskMobileNumber ("9541234567") = maskMobileNumber ("9549999999")
    ∧ maskMobileNumber ("12") = "12" :=
  ⟨(mask_mobile_noninterference ("9541234567") ("9549999999")).2.1
      (by decide) (by decide) (by decide),
   (mask_mobile_noninterference ("12") ("12")).2.2 (by decide)⟩

/-- Membership through one insertion step of the stable sort. -/
lemma mem_orderedInsertLe {x a : RentRequest} {l : List RentRequest} :
    x ∈ orderedInsertLe a l ↔ x = a ∨ x ∈ l := by
  induction l with
  | nil => simp [orderedInsertLe]
  | cons b t ih =>
    rw [orderedInsertLe]
    cases hab : sortLe a b with
    | true => simp
    | false =>
      simp only [Bool.false_eq_true, if_false, List.mem_cons, ih]
      tauto

/-- The stable sort is a permutation in the sense of membership. -/
lemma mem_stableSort {x : RentRequest} {l : List RentRequest} :
    x ∈ stableSort l ↔ x ∈ l := by
  induction l with
  | nil => simp [stableSort]
  | cons a t ih => simp [stableSort, mem_orderedInsertLe, ih]

/-- On records with valid timestamps the comparator ordering is the
numeric ordering of the parsed times. -/
lemma sortLe_valid {a b : RentRequest} (ha : a.timestamp.isSome)
    (hb : b.timestamp.isSome) :
    sortLe a b = decide (tsKey a ≤ tsKey b) := by
  obtain ⟨x, hx⟩ := Option.isSome_iff_exists.mp ha
  obtain ⟨y, hy⟩ := Option.isSome_iff_exists.mp hb
  simp [sortLe, tsKey, hx, hy]

/-- Inserting a valid-timestamp record into a sorted valid-timestamp list
keeps the list sorted by parsed time. -/
lemma pairwise_orderedInsertLe {a : RentRequest} {l : List RentRequest}
    (ha : a.timestamp.isSome) (hl : ∀ x ∈ l, x.timestamp.isSome)
    (hs : l.Pairwise fun u v => tsKey u ≤ tsKey v) :
    (orderedInsertLe a l).Pairwise fun u v => tsKey u ≤ tsKey v := by
  induction l with
  | nil => simp [orderedInsertLe]
  | cons b t ih =>
    have hb : b.timestamp.isSome := hl b (List.mem_cons_self b t)
    have ht : ∀ x ∈ t, x.timestamp.isSome :=
      fun x hx => hl x (List.mem_cons_of_mem b hx)
    rw [List.pairwise_cons] at hs
    rw [orderedInsertLe]
    cases hab : sortLe a b with
    | true =>
      have hab2 : tsKey a ≤ tsKey b := by
        rw [sortLe_valid ha hb] at hab
        exact of_decide_eq_true hab
      simp only [if_true]
      rw [List.pairwise_cons]
      refine ⟨?_, List.pairwise_cons.mpr hs⟩
      intro x hx
      rcases List.mem_cons.mp hx with rfl | hxt
      · exact hab2
      · exact le_trans hab2 (hs.1 x hxt)
    | false =>
      have hba : tsKey b ≤ tsKey a := by
        rw [sortLe_valid ha hb] at hab
        have := of_decide_eq_false hab
        omega
      simp only [Bool.false_eq_true, if_false]
      rw [List.pairwise_cons]
      refine ⟨?_, ih ht hs.2⟩
      intro x hx
      rcases mem_orderedInsertLe.mp hx with rfl | hxt
      · exact hba
      · exact hs.1 x hxt

/-- The stable sort of a valid-timestamp list is sorted by parsed time. -/
lemma pairwise_stableSort {l : List RentRequest}
    (hl : ∀ x ∈ l, x.timestamp.isSome) :
    (stableSort l).Pairwise fun u v => tsKey u ≤ tsKey v := by
  induction l with
  | nil => simp [stableSort]
  | cons a t ih =>
    rw [stableSort]
    have ht : ∀ x ∈ t, x.timestamp.isSome :=
      fun x hx => hl x (List.mem_cons_of_mem a hx)
    exact pairwise_orderedInsertLe (hl a (List.mem_cons_self a t))
      (fun x hx => ht x (mem_stableSort.mp hx)) (ih ht)

/-- On a valid-timestamp list, collecting the timestamps is just mapping
the parsed time. -/
lemma filterMap_ts_eq_map {l : List RentRequest}
    (h : ∀ r ∈ l, r.timestamp.isSome) :
    (l.filterMap fun r => r.timestamp) = l.map tsKey := by
  induction l with
  | nil => rfl
  | cons a t ih =>
    obtain ⟨x, hx⟩ := Option.isSome_iff_exists.mp (h a (List.mem_cons_self a t))
    simp only [List.filterMap_cons, List.map_cons, hx]
    rw [ih fun r hr => h r (List.mem_cons_of_mem a hr)]
    simp [tsKey, hx]

/-- C4: when every Pending request carries a well-formed timestamp, the
computed next available time is the minimum createdAt over all Pending
requests (not only the active-window subset) plus 24 hours; and when no
Pending request exists at all, canSendMore is true and the next available
time is null. -/
theorem nextAvailable_min_all_pending (reqs : List RentRequest) (now : Int)
    (h : ∀ r ∈ allPending reqs, r.timestamp.isSome) :
    (allPending reqs = [] →
      (loadDataCompute reqs now).canSendMore = true
      ∧ (loadDataCompute reqs now).nextAvailableTime = none)
    ∧ (allPending reqs ≠ [] →
      ∃ m, m ∈ pendingTimestamps reqs ∧ (∀ t ∈ pendingTimestamps reqs, m ≤ t)
        ∧ (loadDataCompute reqs now).nextAvailableTime = some (some (m + dayMs))) := by
  constructor
  · intro hemp
    have hact : activePending reqs now = [] := by
      rw [List.eq_nil_iff_forall_not_mem]
      intro r hr
      have hrall : r ∈ allPending reqs := by
        rw [activePending, List.mem_filter] at hr
        rw [allPending, List.mem_filter]
        have h2 := hr.2
        rw [Bool.and_eq_true] at h2
        exact ⟨hr.1, h2.1⟩
      rw [hemp] at hrall
      exact absurd hrall (List.not_mem_nil r)
    constructor
    · simp [loadDataCompute, hact]
    · show nextAvailableTime reqs = none
      rw [nextAvailableTime]
      have : sortedPending reqs = [] := by
        rw [sortedPending, hemp, stableSort]
      rw [this]
  · intro hne
    cases hsp : sortedPending reqs with
    | nil =>
      exfalso
      apply hne
      rw [List.eq_nil_iff_forall_not_mem]
      intro r hr
      have hrs : r ∈ sortedPending reqs := mem_stableSort.mpr hr
      rw [hsp] at hrs
      exact absurd hrs (List.not_mem_nil r)
    | cons r l =>
      have hr0 : r ∈ sortedPending reqs := by
        rw [hsp]
        exact List.mem_cons_self r l
      have hrmem : r ∈ allPending reqs := mem_stableSort.mp hr0
      obtain ⟨x, hx⟩ := Option.isSome_iff_exists.mp (h r hrmem)
      have hpair : (sortedPending reqs).Pairwise fun u v => tsKey u ≤ tsKey v :=
        pairwise_stableSort h
      rw [hsp, List.pairwise_cons] at hpair
      have hmin : ∀ y ∈ allPending reqs, tsKey r ≤ tsKey y := by
        intro y hy
        have hymem : y ∈ sortedPending reqs := mem_stableSort.mpr hy
        rw [hsp] at hymem
        rcases List.mem_cons.mp hymem with rfl | hyl
        · exact le_refl _
        · exact hpair.1 y hyl
      refine ⟨tsKey r, ?_, ?_, ?_⟩
      · rw [pendingTimestamps, filterMap_ts_eq_map h]
        exact List.mem_map_of_mem tsKey hrmem
      · intro t ht
        rw [pendingTimestamps, filterMap_ts_eq_map h] at ht
        obtain ⟨y, hy, rfl⟩ := List.mem_map.mp ht
        exact hmin y hy
      · show nextAvailableTime reqs = _
        rw [nextAvailableTime, hsp]
        simp [tsKey, hx]

/-- Witness for nextAvailable_min_all_pending: two Pending requests at
times 3 and 5 (in any order in the list); the next available time is 3
plus 24 hours. -/
theorem nextAvailable_min_all_pending_witness :
    ∃ m, m ∈ pendingTimestamps [⟨"r1", "b1", ReqStatus.Pending, some 5⟩,
        ⟨"r2", "b2", ReqStatus.Pending, some 3⟩]
      ∧ (∀ t ∈ pendingTimestamps [⟨"r1", "b1", ReqStatus.Pending, some 5⟩,
          ⟨"r2", "b2", ReqStatus.Pending, some 3⟩], m ≤ t)
      ∧ (loadDataCompute [⟨"r1", "b1", ReqStatus.Pending, some 5⟩,
          ⟨"r2", "b2", ReqStatus.Pending, some 3⟩] 0).nextAvailableTime
          = some (some (m + dayMs)) :=
  (nextAvailable_min_all_pending [⟨"r1", "b1", ReqStatus.Pending, some 5⟩,
      ⟨"r2", "b2", ReqStatus.Pending, some 3⟩] 0 (by decide)).2 (by decide)

/-- The reduce accumulator of oldestAccepted is always one of the
candidates. -/
lemma foldl_pickOlder_mem (t : List RentRequest) (a : RentRequest) :
    t.foldl pickOlder a ∈ a :: t := by
  induction t generalizing a with
  | nil => simp
  | cons c t2 ih =>
    rw [List.foldl_cons]
    rcases List.mem_cons.mp (ih (pickOlder a c)) with he | ht
    · rw [he, pickOlder]
      split
      · exact List.mem_cons_of_mem a (List.mem_cons_self c t2)
      · exact List.mem_cons_self a (c :: t2)
    · exact List.mem_cons_of_mem a (List.mem_cons_of_mem c ht)

/-- Over valid timestamps the reduce of pickOlder yields a record of
minimal parsed time among all candidates. -/
lemma foldl_pickOlder_min (t : List RentRequest) (a : RentRequest)
    (hv : ∀ x ∈ a :: t, x.timestamp.isSome) :
    ∀ x ∈ a :: t, tsKey (t.foldl pickOlder a) ≤ tsKey x := by
  induction t generalizing a with
  | nil =>
    intro x hx
    rcases List.mem_cons.mp hx with rfl | h0
    · exact le_refl _
    · exact absurd h0 (List.not_mem_nil x)
  | cons c t2 ih =>
    intro x hx
    rw [List.foldl_cons]
    have ha : a.timestamp.isSome := hv a (List.mem_cons_self a (c :: t2))
    have hc : c.timestamp.isSome :=
      hv c (List.mem_cons_of_mem a (List.mem_cons_self c t2))
    obtain ⟨xa, hxa⟩ := Option.isSome_iff_exists.mp ha
    obtain ⟨xc, hxc⟩ := Option.isSome_iff_exists.mp hc
    have hka : tsKey a = xa := by rw [tsKey, hxa]; rfl
    have hkc : tsKey c = xc := by rw [tsKey, hxc]; rfl
    have hpsome : (pickOlder a c).timestamp.isSome := by
      rw [pickOlder]
      split
      · exact hc
      · exact ha
    have hv2 : ∀ y ∈ pickOlder a c :: t2, y.timestamp.isSome := by
      intro y hy
      rcases List.mem_cons.mp hy with rfl | hyt
      · exact hpsome
      · exact hv y (List.mem_cons_of_mem a (List.mem_cons_of_mem c hyt))
    have hple : tsKey (pickOlder a c) ≤ tsKey a ∧ tsKey (pickOlder a c) ≤ tsKey c := by
      by_cases hlt : jsLt c.timestamp a.timestamp = true
      · rw [pickOlder, if_pos hlt]
        rw [hxa, hxc] at hlt
        simp only [jsLt] at hlt
        have hord : xc < xa := of_decide_eq_true hlt
        rw [hka, hkc]
        omega
      · rw [pickOlder, if_neg hlt]
        rw [hxa, hxc] at hlt
        simp only [jsLt] at hlt
        have hord : ¬ xc < xa := fun hcon => hlt (decide_eq_true hcon)
        rw [hka, hkc]
        omega
    have hrec := ih (pickOlder a c) hv2
    rcases List.mem_cons.mp hx with rfl | hx2
    · exact le_trans (hrec _ (List.mem_cons_self _ _)) hple.1
    rcases List.mem_cons.mp hx2 with rfl | hx3
    · exact le_trans (hrec _ (List.mem_cons_self _ _)) hple.2
    · exact hrec x (List.mem_cons_of_mem _ hx3)

/-- The oldestAccepted reduce returns, over valid timestamps, an accepted
record of minimal parsed time. -/
lemma oldestAccepted_spec (reqs : List RentRequest)
    (hv : ∀ x ∈ acceptedReqs reqs, x.timestamp.isSome)
    (hne : acceptedReqs reqs ≠ []) :
    ∃ r, oldestAccepted reqs = some r ∧ r ∈ acceptedReqs reqs
      ∧ r.timestamp = some (tsKey r)
      ∧ ∀ x ∈ acceptedReqs reqs, tsKey r ≤ tsKey x := by
  obtain ⟨h0, t, hl⟩ : ∃ h0 t, acceptedReqs reqs = h0 :: t := by
    cases hl2 : acceptedReqs reqs with
    | nil => exact absurd hl2 hne
    | cons a b => exact ⟨a, b, rfl⟩
  have hmem : t.foldl pickOlder h0 ∈ acceptedReqs reqs := by
    rw [hl]
    exact foldl_pickOlder_mem t h0
  obtain ⟨x, hx⟩ := Option.isSome_iff_exists.mp (hv _ hmem)
  refine ⟨t.foldl pickOlder h0, by simp [oldestAccepted, hl], hmem, ?_, ?_⟩
  · rw [hx]
    simp [tsKey, hx]
  · intro y hy
    rw [hl] at hy hv
    exact foldl_pickOlder_min t h0 hv y hy

/-- Unfolding of tenantCountdown at a known oldest accepted record with a
valid timestamp. -/
lemma tenantCountdown_eq (reqs : List RentRequest) (now : Int)
    (r : RentRequest) (k : Int)
    (hr : oldestAccepted reqs = some r) (hts : r.timestamp = some k) :
    tenantCountdown reqs now = some (updateCountdown k now) := by
  simp [tenantCountdown, hr, hts]

/-- When the minimum accepted timestamp is T, the oldestAccepted record
carries exactly the timestamp T. -/
lemma oldestAccepted_at_min (reqs : List RentRequest) (T : Int)
    (hv : ∀ x ∈ acceptedReqs reqs, x.timestamp.isSome)
    (hne : acceptedReqs reqs ≠ [])
    (hT : T ∈ acceptedTimestamps reqs)
    (hmin : ∀ t ∈ acceptedTimestamps reqs, T ≤ t) :
    ∃ r, oldestAccepted reqs = some r ∧ r.timestamp = some T := by
  obtain ⟨r, hr, hrmem, hrts, hrmin⟩ := oldestAccepted_spec reqs hv hne
  rw [acceptedTimestamps, filterMap_ts_eq_map hv] at hT hmin
  obtain ⟨y, hy, hyT⟩ := List.mem_map.mp hT
  have h1 : tsKey r ≤ tsKey y := hrmin y hy
  have h2 : T ≤ tsKey r := hmin _ (List.mem_map_of_mem tsKey hrmem)
  have hTkey : tsKey r = T := by omega
  exact ⟨r, hr, by rw [hrts, hTkey]⟩

/-- A nonpositive remaining difference yields the all-zero countdown. -/
lemma updateCountdown_clamped (k now : Int) (h : k + fiveDaysMs ≤ now) :
    updateCountdown k now = ⟨0, 0, 0, 0⟩ := by
  unfold updateCountdown
  rw [if_pos (by omega)]

/-- The floor-division cascade of updateCountdown recomposes to the
clamped remaining time in whole seconds. -/
lemma updateCountdown_roundtrip (k now : Int) :
    (updateCountdown k now).days * 86400 + (updateCountdown k now).hours * 3600
      + (updateCountdown k now).minutes * 60 + (updateCountdown k now).seconds
      = (k + fiveDaysMs - now).toNat / 1000 := by
  unfold updateCountdown
  dsimp only
  split
  · dsimp only
    omega
  · dsimp only
    omega

/-- The cascade fields of updateCountdown lie in their clock ranges. -/
lemma updateCountdown_ranges (k now : Int) :
    (updateCountdown k now).hours < 24 ∧ (updateCountdown k now).minutes < 60
      ∧ (updateCountdown k now).seconds < 60 := by
  unfold updateCountdown
  dsimp only
  split
  · dsimp only
    omega
  · dsimp only
    refine ⟨by omega, by omega, by omega⟩

/-- C6: for a tenant list whose oldest Accepted request was created at time
T (minimum accepted timestamp, all accepted timestamps well formed), at any
current time at or past T plus 5 days the computed countdown is all zeros;
no field is ever negative, each being a natural number by construction. -/
theorem countdown_clamped_zero (reqs : List RentRequest) (now T : Int)
    (hv : ∀ x ∈ acceptedReqs reqs, x.timestamp.isSome)
    (hne : acceptedReqs reqs ≠ [])
    (hT : T ∈ acceptedTimestamps reqs)
    (hmin : ∀ t ∈ acceptedTimestamps reqs, T ≤ t)
    (hnow : T + fiveDaysMs ≤ now) :
    tenantCountdown reqs now = some ⟨0, 0, 0, 0⟩ := by
  obtain ⟨r, hr, hrts⟩ := oldestAccepted_at_min reqs T hv hne hT hmin
  rw [tenantCountdown_eq reqs now r T hr hrts, updateCountdown_clamped T now hnow]

/-- Witness for countdown_clamped_zero: one request accepted at time 0,
evaluated 5 days plus 1 second later; the countdown is all zeros. -/
theorem countdown_clamped_zero_witness :
    tenantCountdown [⟨"r1", "a", ReqStatus.Accepted, some 0⟩] (fiveDaysMs + 1000)
      = some ⟨0, 0, 0, 0⟩ :=
  countdown_clamped_zero [⟨"r1", "a", ReqStatus.Accepted, some 0⟩]
    (fiveDaysMs + 1000) 0 (by decide) (by decide) (by decide) (by decide) (by decide)

/-- C7: with at least one Accepted request (valid timestamps, oldest at T),
the countdown fields recompose exactly to the clamped remaining time until
T plus 5 days, truncated to whole seconds. -/
theorem countdown_decomposition_roundtrip (reqs : List RentRequest) (now T : Int)
    (hv : ∀ x ∈ acceptedReqs reqs, x.timestamp.isSome)
    (hne : acceptedReqs reqs ≠ [])
    (hT : T ∈ acceptedTimestamps reqs)
    (hmin : ∀ t ∈ acceptedTimestamps reqs, T ≤ t) :
    ∃ c, tenantCountdown reqs now = some c
      ∧ c.days * 86400 + c.hours * 3600 + c.minutes * 60 + c.seconds
          = (T + fiveDaysMs - now).toNat / 1000 := by
  obtain ⟨r, hr, hrts⟩ := oldestAccepted_at_min reqs T hv hne hT hmin
  exact ⟨updateCountdown T now, tenantCountdown_eq reqs now r T hr hrts,
    updateCountdown_roundtrip T now⟩

/-- Witness for countdown_decomposition_roundtrip: one request accepted at
time 0, evaluated 1 second later. -/
theorem countdown_decomposition_roundtrip_witness :
    ∃ c, tenantCountdown [⟨"r1", "a", ReqStatus.Accepted, some 0⟩] 1000 = some c
      ∧ c.days * 86400 + c.hours * 3600 + c.minutes * 60 + c.seconds
          = ((0 : Int) + fiveDaysMs - 1000).toNat / 1000 :=
  countdown_decomposition_roundtrip [⟨"r1", "a", ReqStatus.Accepted, some 0⟩]
    1000 0 (by decide) (by decide) (by decide) (by decide)

/-- C9: with at least one Accepted request with valid timestamps, the
countdown fields satisfy the clock ranges: days nonnegative, hours below
24, minutes and seconds below 60, at every recomputation instant. -/
theorem countdown_field_ranges (reqs : List RentRequest) (now : Int)
    (hv : ∀ x ∈ acceptedReqs reqs, x.timestamp.isSome)
    (hne : acceptedReqs reqs ≠ []) :
    ∃ c, tenantCountdown reqs now = some c
      ∧ 0 ≤ c.days ∧ c.hours < 24 ∧ c.minutes < 60 ∧ c.seconds < 60 := by
  obtain ⟨r, hr, hrmem, hrts, hrmin⟩ := oldestAccepted_spec reqs hv hne
  obtain ⟨h24, h60m, h60s⟩ := updateCountdown_ranges (tsKey r) now
  exact ⟨updateCountdown (tsKey r) now,
    tenantCountdown_eq reqs now r (tsKey r) hr hrts,
    Nat.zero_le _, h24, h60m, h60s⟩

/-- Witness for countdown_field_ranges: one request accepted at time 0,
evaluated 1 second later. -/
theorem countdown_field_ranges_witness :
    ∃ c, tenantCountdown [⟨"r1", "a", ReqStatus.Accepted, some 0⟩] 1000 = some c
      ∧ 0 ≤ c.days ∧ c.hours < 24 ∧ c.minutes < 60 ∧ c.seconds < 60 :=
  countdown_field_ranges [⟨"r1", "a", ReqStatus.Accepted, some 0⟩] 1000
    (by decide) (by decide)
